import Mathlib

/-!
Shallow embedding of the Dauphine OOP 2025 exercise repository.

The embedding covers:
* `src/exercise/s1/s_1_bs_option.py` — Black–Scholes `Option`/`Call`/`Put`
  (namespace `S1`), with `scipy.stats.norm.cdf`/`norm.pdf` modelled as the
  mathematical standard normal CDF and density (`normCdf`, `normPdf`).
* `src/theory/others/s3_extended.py` — `Option.compute_d1`, `Quote`,
  `NegativePriceException`, `FinancialAsset` (namespace `S3`).
* `src/exercise/s2/s_2_custom_list_part_2.py` — the dict-backed custom
  `List` class (here `PyList`, since `List` is taken), with the Python
  `dict` modelled as an association list in insertion order (`dGet`,
  `dSet`, `dDel`, `dPop` mirror `d[k]`, `d[k] = v`, `del d[k]`,
  `d.pop(k)`).
* `src/theory/s2.py` — `BankAccount` (namespace `Theory2`).

Python `float` prices and amounts are modelled as `ℚ` where only ordering
and field arithmetic matter, and as `ℝ` for the Black–Scholes analysis.
Uncaught Python exceptions are modelled with `Except`/`PyErr`; a method
that can raise returns its result together with the post-state of the
mutated object, so that "the object is unchanged when the method raises"
is a provable statement.
-/

/-- Python exceptions that the custom list code can raise. -/
inductive PyErr : Type where
  | indexError : PyErr
  | keyError : PyErr
deriving DecidableEq, Repr

/-! ## Python dict as an insertion-ordered association list -/

/-- `d[k]` lookup in a Python dict (first matching key). -/
def dGet {α : Type} (d : List (Nat × α)) (k : Nat) : Option α :=
  (d.find? (fun p => p.1 == k)).map (fun p => p.2)

/-- `del d[k]` / the removal part of `d.pop(k)`: drops the first pair with
key `k`, keeping insertion order. -/
def dDel {α : Type} (d : List (Nat × α)) (k : Nat) : List (Nat × α) :=
  d.eraseP (fun p => p.1 == k)

/-- `d.pop(k)`: `none` models an uncaught `KeyError`. -/
def dPop {α : Type} (d : List (Nat × α)) (k : Nat) : Option (α × List (Nat × α)) :=
  match dGet d k with
  | none => none
  | some v => some (v, dDel d k)

/-- `d[k] = v`: updates the first pair with key `k` in place, else appends
the new pair at the end (Python insertion-order semantics). -/
def dSet {α : Type} (d : List (Nat × α)) (k : Nat) (v : α) : List (Nat × α) :=
  if (dGet d k).isSome then
    d.map (fun p => if p.1 == k then (k, v) else p)
  else
    d ++ [(k, v)]

/-! ## The custom `List` class (`s_2_custom_list_part_2.py`) -/

/-- The custom `List` class: `_elements` is the backing dict,
`_count` the element count. -/
structure PyList (α : Type) : Type where
  elements : List (Nat × α)
  count : Nat
deriving DecidableEq, Repr

namespace PyList

/-- `List.__init__`. -/
def empty {α : Type} : PyList α := ⟨[], 0⟩

/-- `List.append`: `self._elements[self._count] = element; self._count += 1`. -/
def append {α : Type} (l : PyList α) (x : α) : PyList α :=
  ⟨dSet l.elements l.count x, l.count + 1⟩

/-- `len(l)`, i.e. `List.__len__`. -/
def len {α : Type} (l : PyList α) : Nat := l.count

/-- The loop `for i in range(i0, stop): self._elements[i] = self._elements.pop(i + 1)`
shared by `List.pop` and `List.remove`. The dict is threaded so that a
`KeyError` (`.error`) still reports the partially shifted dict. -/
def shiftLoop {α : Type} (d : List (Nat × α)) (i stop : Nat) :
    Except PyErr Unit × List (Nat × α) :=
  if i < stop then
    match dPop d (i + 1) with
    | none => (.error .keyError, d)
    | some (v, d') => shiftLoop (dSet d' i v) (i + 1) stop
  else
    (.ok (), d)
termination_by stop - i
decreasing_by omega

/-- `List.pop(index)`: bounds check, `self._elements.pop(index)`,
`self._count -= 1`, shift loop, return the element. The Python `index`
is an arbitrary integer. -/
def pop {α : Type} (l : PyList α) (index : Int) : Except PyErr α × PyList α :=
  if index < 0 ∨ (l.count : Int) ≤ index then
    (.error .indexError, l)
  else
    match dPop l.elements index.toNat with
    | none => (.error .keyError, l)
    | some (v, d) =>
      let c := l.count - 1
      let r := shiftLoop d index.toNat c
      (r.1.map (fun _ => v), ⟨r.2, c⟩)

/-- `List.remove(value)`: find the first `(index, element)` of the dict (in
insertion order) with `element == value`; if found, delete it, decrement
the count and run the shift loop, else do nothing. -/
def remove {α : Type} [DecidableEq α] (l : PyList α) (value : α) :
    Except PyErr Unit × PyList α :=
  match l.elements.find? (fun p => p.2 == value) with
  | none => (.ok (), l)
  | some p =>
    let d := dDel l.elements p.1
    let c := l.count - 1
    let r := shiftLoop d p.1 c
    (r.1, ⟨r.2, c⟩)

/-- `List.__getitem__(index)`: bounds check then `self._elements[index]`
(the dict lookup would raise `KeyError` on a missing key). The method never
mutates, so only the result is returned. -/
def getitem {α : Type} (l : PyList α) (index : Int) : Except PyErr α :=
  if index < 0 ∨ (l.count : Int) ≤ index then
    .error .indexError
  else
    match dGet l.elements index.toNat with
    | none => .error .keyError
    | some v => .ok v

/-- `List.__setitem__(index, value)`: bounds check then
`self._elements[index] = value`. -/
def setitem {α : Type} (l : PyList α) (index : Int) (value : α) :
    Except PyErr Unit × PyList α :=
  if index < 0 ∨ (l.count : Int) ≤ index then
    (.error .indexError, l)
  else
    (.ok (), ⟨dSet l.elements index.toNat value, l.count⟩)

/-- `List.__add__(self, other)`: the body is `pass`, so the method executes
no statements and returns `None` (`none`), whatever the type `β` of
`other`; no exception is raised and neither operand is mutated, so the
post-states are the arguments themselves. -/
def add {α β : Type} (self : PyList α) (other : β) :
    Except PyErr (Option (PyList α)) × PyList α × β :=
  (.ok none, self, other)

end PyList

/-- `fromList xs` is the canonical state of a custom list holding the
elements of `xs`: the backing dict maps `i ↦ xs[i]` in insertion order
`0, 1, ..., len-1`. Every reachable `PyList` state has this shape. -/
def zipFrom {α : Type} (k : Nat) : List α → List (Nat × α)
  | [] => []
  | x :: xs => (k, x) :: zipFrom (k + 1) xs

/-- The canonical custom-list state representing the plain list `xs`. -/
def fromList {α : Type} (xs : List α) : PyList α := ⟨zipFrom 0 xs, xs.length⟩

/-- The implicit class invariant of the custom `List`: `_count` is the
number of stored elements and the keys of `_elements` are exactly
`0, 1, ..., _count - 1` (in insertion order). -/
def KeysInv {α : Type} (l : PyList α) : Prop :=
  l.elements.map Prod.fst = List.range l.count ∧ l.count = l.elements.length

/-! ## `BankAccount` (`src/theory/s2.py`) -/

namespace Theory2

/-- The `BankAccount` class: `owner`, `_balance`, `__transaction_history`.
Monetary amounts (`float` in Python) are modelled as `ℚ`. -/
structure BankAccount : Type where
  owner : String
  balance : ℚ
  transaction_history : List String
deriving DecidableEq, Repr

namespace BankAccount

/-- `BankAccount.__init__(owner, initial_balance)`. -/
def init (owner : String) (initial_balance : ℚ) : BankAccount :=
  ⟨owner, initial_balance, []⟩

/-- `BankAccount.deposit(amount)`: returns `(return value, post-state)`. -/
def deposit (a : BankAccount) (amount : ℚ) : Bool × BankAccount :=
  if 0 < amount then
    (true, { a with
      balance := a.balance + amount,
      transaction_history := a.transaction_history ++ ["Deposit of " ++ toString amount] })
  else
    (false, a)

/-- `BankAccount.withdraw(amount)`: returns `(return value, post-state)`. -/
def withdraw (a : BankAccount) (amount : ℚ) : Bool × BankAccount :=
  if 0 < amount ∧ amount ≤ a.balance then
    (true, { a with
      balance := a.balance - amount,
      transaction_history := a.transaction_history ++ ["Withdrawal of " ++ toString amount] })
  else
    (false, a)

/-- `BankAccount.get_balance()`. -/
def get_balance (a : BankAccount) : ℚ := a.balance

end BankAccount

/-- One client call in a sequence of operations on an account. -/
inductive TxOp : Type where
  | deposit (amount : ℚ) : TxOp
  | withdraw (amount : ℚ) : TxOp
deriving DecidableEq, Repr

/-- Run a sequence of `deposit`/`withdraw` calls, keeping the final state. -/
def runOps (a : BankAccount) : List TxOp → BankAccount
  | [] => a
  | .deposit amt :: ops => runOps (a.deposit amt).2 ops
  | .withdraw amt :: ops => runOps (a.withdraw amt).2 ops

end Theory2

/-! ## `Quote`, `NegativePriceException`, `FinancialAsset` (`s3_extended.py`) -/

namespace S3

/-- The `Quote` class; the `datetime` date is modelled as an integer
timestamp, the `float` price as `ℚ`. -/
structure Quote : Type where
  date : Int
  price : ℚ
deriving DecidableEq, Repr

/-- `NegativePriceException(*args)` carrying the offending quote. -/
structure NegativePriceException : Type where
  quote : Quote
deriving DecidableEq, Repr

/-- The `FinancialAsset` class. -/
structure FinancialAsset : Type where
  ticker : String
  last_quote : Quote
  currency : String
  history : List Quote
deriving DecidableEq, Repr

namespace FinancialAsset

/-- `FinancialAsset.__check_quote_for_asset(new_quote)`: raises
`NegativePriceException(new_quote)` when `new_quote.price < 0`. -/
def check_quote_for_asset (new_quote : Quote) :
    Except NegativePriceException Unit :=
  if new_quote.price < 0 then .error ⟨new_quote⟩ else .ok ()

/-- `FinancialAsset.update_last_quote(new_quote)`: the `try` body runs the
check, then `self.history.append(self.last_quote)` and
`self.last_quote = new_quote`; the `except NegativePriceException` arm
prints and deliberately does not re-raise (`# raise`), so the method is
total and leaves the asset unchanged when the check raises. -/
def update_last_quote (a : FinancialAsset) (new_quote : Quote) : FinancialAsset :=
  match check_quote_for_asset new_quote with
  | .error _ => a
  | .ok _ =>
    { a with history := a.history ++ [a.last_quote], last_quote := new_quote }

end FinancialAsset

end S3

/-! ## `scipy.stats.norm` and the Black–Scholes classes -/

open MeasureTheory in
/-- `scipy.stats.norm.cdf`: the standard normal cumulative distribution
function `x ↦ (∫_{-∞}^{x} e^(-t²/2) dt) / √(2π)`. -/
noncomputable def normCdf (x : ℝ) : ℝ :=
  (∫ t in Set.Iic x, Real.exp (-(t ^ 2) / 2)) / Real.sqrt (2 * Real.pi)

/-- `scipy.stats.norm.pdf`: the standard normal density
`x ↦ e^(-x²/2) / √(2π)`. -/
noncomputable def normPdf (x : ℝ) : ℝ :=
  Real.exp (-(x ^ 2) / 2) / Real.sqrt (2 * Real.pi)

namespace S1

/-- `Option.d1` of `s_1_bs_option.py`, exactly as written:
`(math.log(S / K) + (r + 0.5 * sigma**2) * T) / sigma * math.sqrt(T)`.
Python's left-associative precedence makes this
`((ln(S/K) + (r + 0.5σ²)T) / σ) · √T`. -/
noncomputable def d1 (S K r T sigma : ℝ) : ℝ :=
  (Real.log (S / K) + (r + 0.5 * sigma ^ 2) * T) / sigma * Real.sqrt T

/-- `Option.d2`: `self.d1() - self.sigma * math.sqrt(self.T)`. -/
noncomputable def d2 (S K r T sigma : ℝ) : ℝ :=
  d1 S K r T sigma - sigma * Real.sqrt T

/-- `Option.vega`: `self.S * norm.pdf(self.d1()) * math.sqrt(self.T)`. -/
noncomputable def vega (S K r T sigma : ℝ) : ℝ :=
  S * normPdf (d1 S K r T sigma) * Real.sqrt T

namespace Call

/-- `Call.price`: `S * norm.cdf(d1) - K * exp(-r T) * norm.cdf(d2)`. -/
noncomputable def price (S K r T sigma : ℝ) : ℝ :=
  S * normCdf (d1 S K r T sigma) -
    K * Real.exp (-r * T) * normCdf (d2 S K r T sigma)

/-- `Call.delta`: `norm.cdf(self.d1())`. -/
noncomputable def delta (S K r T sigma : ℝ) : ℝ :=
  normCdf (d1 S K r T sigma)

end Call

namespace Put

/-- `Put.price`: `K * exp(-r T) * norm.cdf(-d2) - S * norm.cdf(-d1)`. -/
noncomputable def price (S K r T sigma : ℝ) : ℝ :=
  K * Real.exp (-r * T) * normCdf (-(d2 S K r T sigma)) -
    S * normCdf (-(d1 S K r T sigma))

/-- `Put.delta`: `norm.cdf(self.d1()) - 1.0`. -/
noncomputable def delta (S K r T sigma : ℝ) : ℝ :=
  normCdf (d1 S K r T sigma) - 1

end Put

end S1

namespace S3

/-- `Option.compute_d1` of `s3_extended.py`, exactly as written:
`(math.log(spot / strike) + (risk_free + 0.5 * vol ** 2) * ttm) / (vol * math.sqrt(ttm))`. -/
noncomputable def compute_d1 (spot strike risk_free ttm vol : ℝ) : ℝ :=
  (Real.log (spot / strike) + (risk_free + 0.5 * vol ^ 2) * ttm) /
    (vol * Real.sqrt ttm)

end S3

/-- The d1 of the specification, written from the spec's words:
`d1(S,K,r,T,σ) = (ln(S/K) + (r + 0.5σ²)T) / (σ√T)`. -/
noncomputable def specD1 (S K r T sigma : ℝ) : ℝ :=
  (Real.log (S / K) + (r + 0.5 * sigma ^ 2) * T) / (sigma * Real.sqrt T)

/-! ## Facts about the standard normal CDF and density -/

lemma gauss_integrable :
    MeasureTheory.Integrable (fun t : ℝ => Real.exp (-(t ^ 2) / 2)) := by
  have h := integrable_exp_neg_mul_sq (show (0 : ℝ) < 1 / 2 by norm_num)
  have e : (fun t : ℝ => Real.exp (-(t ^ 2) / 2)) =
      fun x : ℝ => Real.exp (-(1 / 2) * x ^ 2) := by
    funext t
    ring_nf
  rw [e]
  exact h

lemma gauss_total :
    ∫ t : ℝ, Real.exp (-(t ^ 2) / 2) = Real.sqrt (2 * Real.pi) := by
  have h := integral_gaussian (1 / 2)
  have e : (fun t : ℝ => Real.exp (-(t ^ 2) / 2)) =
      fun x : ℝ => Real.exp (-(1 / 2) * x ^ 2) := by
    funext t
    ring_nf
  calc ∫ t : ℝ, Real.exp (-(t ^ 2) / 2)
      = ∫ x : ℝ, Real.exp (-(1 / 2) * x ^ 2) := by rw [e]
    _ = Real.sqrt (Real.pi / (1 / 2)) := h
    _ = Real.sqrt (2 * Real.pi) := by rw [div_div_eq_mul_div, div_one, mul_comm]

lemma sqrt_two_pi_pos : 0 < Real.sqrt (2 * Real.pi) :=
  Real.sqrt_pos.mpr (by positivity)

lemma normCdf_nonneg (x : ℝ) : 0 ≤ normCdf x :=
  div_nonneg
    (MeasureTheory.setIntegral_nonneg measurableSet_Iic
      (fun _ _ => (Real.exp_pos _).le))
    (Real.sqrt_nonneg _)

lemma normCdf_le_one (x : ℝ) : normCdf x ≤ 1 := by
  rw [normCdf, div_le_one sqrt_two_pi_pos]
  calc ∫ t in Set.Iic x, Real.exp (-(t ^ 2) / 2)
      ≤ ∫ t : ℝ, Real.exp (-(t ^ 2) / 2) :=
        MeasureTheory.setIntegral_le_integral gauss_integrable
          (MeasureTheory.ae_of_all _ fun _ => (Real.exp_pos _).le)
    _ = Real.sqrt (2 * Real.pi) := gauss_total

/-- Reflection symmetry of the standard normal CDF: `Φ(x) + Φ(-x) = 1`. -/
lemma normCdf_add_neg (x : ℝ) : normCdf x + normCdf (-x) = 1 := by
  have hrefl : ∫ t in Set.Iic (-x), Real.exp (-(t ^ 2) / 2) =
      ∫ t in Set.Ioi x, Real.exp (-(t ^ 2) / 2) := by
    have h := integral_comp_neg_Iic (-x)
      (fun t : ℝ => Real.exp (-(t ^ 2) / 2))
    simpa [neg_sq] using h
  rw [normCdf, normCdf, div_add_div_same, hrefl,
    intervalIntegral.integral_Iic_add_Ioi gauss_integrable.integrableOn
      gauss_integrable.integrableOn,
    gauss_total, div_self (ne_of_gt sqrt_two_pi_pos)]

lemma normCdf_neg_eq (x : ℝ) : normCdf (-x) = 1 - normCdf x := by
  have h := normCdf_add_neg x
  linarith

lemma normPdf_nonneg (x : ℝ) : 0 ≤ normPdf x :=
  div_nonneg (Real.exp_pos _).le (Real.sqrt_nonneg _)

/-! ## Lemmas about the dict model and canonical list states -/

section PyListLemmas

variable {α : Type}

lemma zipFrom_append : ∀ (xs ys : List α) (k : Nat),
    zipFrom k (xs ++ ys) = zipFrom k xs ++ zipFrom (k + xs.length) ys
  | [], ys, k => by simp [zipFrom]
  | x :: xs, ys, k => by
    have h := zipFrom_append xs ys (k + 1)
    have e : k + 1 + xs.length = k + (xs.length + 1) := by omega
    simp only [List.cons_append, zipFrom, List.append_eq, h, List.length_cons, e]

lemma zipFrom_length : ∀ (xs : List α) (k : Nat), (zipFrom k xs).length = xs.length
  | [], _ => rfl
  | _ :: xs, k => by simp [zipFrom, zipFrom_length xs (k + 1)]

lemma mem_zipFrom : ∀ {xs : List α} {k : Nat} {p : Nat × α}, p ∈ zipFrom k xs →
    ∃ j, ∃ h : j < xs.length, p.1 = k + j ∧ p.2 = xs.get ⟨j, h⟩
  | [], _, _, hp => by simp [zipFrom] at hp
  | x :: xs, k, p, hp => by
    simp only [zipFrom, List.mem_cons] at hp
    rcases hp with rfl | hp
    · exact ⟨0, by simp, by simp, by simp⟩
    · obtain ⟨j, h, h1, h2⟩ := mem_zipFrom hp
      refine ⟨j + 1, by simpa using Nat.succ_lt_succ h, by omega, ?_⟩
      simpa using h2

lemma zipFrom_key_lt {xs : List α} {k : Nat} {p : Nat × α}
    (hp : p ∈ zipFrom k xs) : k ≤ p.1 ∧ p.1 < k + xs.length := by
  obtain ⟨j, h, h1, _⟩ := mem_zipFrom hp
  omega

lemma dGet_cons_self (k : Nat) (x : α) (d : List (Nat × α)) :
    dGet ((k, x) :: d) k = some x := by
  simp [dGet]

lemma dGet_cons_ne {m k : Nat} (h : m ≠ k) (x : α) (d : List (Nat × α)) :
    dGet ((k, x) :: d) m = dGet d m := by
  unfold dGet
  rw [List.find?_cons_of_neg]
  simpa using Ne.symm h

lemma dGet_none {d : List (Nat × α)} {m : Nat} (h : ∀ p ∈ d, p.1 ≠ m) :
    dGet d m = none := by
  have h1 : d.find? (fun p => p.1 == m) = none :=
    List.find?_eq_none.mpr (by intro p hp; simpa using h p hp)
  simp [dGet, h1]

lemma dGet_append_right {d₁ d₂ : List (Nat × α)} {m : Nat}
    (h : ∀ p ∈ d₁, p.1 ≠ m) : dGet (d₁ ++ d₂) m = dGet d₂ m := by
  have h1 : d₁.find? (fun p => p.1 == m) = none :=
    List.find?_eq_none.mpr (by intro p hp; simpa using h p hp)
  simp [dGet, List.find?_append, h1]

lemma dDel_cons_self (k : Nat) (x : α) (d : List (Nat × α)) :
    dDel ((k, x) :: d) k = d := by
  simp [dDel]

lemma dDel_cons_ne {m k : Nat} (h : m ≠ k) (x : α) (d : List (Nat × α)) :
    dDel ((k, x) :: d) m = (k, x) :: dDel d m := by
  unfold dDel
  rw [List.eraseP_cons_of_neg]
  simpa using Ne.symm h

lemma dDel_append_right {d₁ d₂ : List (Nat × α)} {m : Nat}
    (h : ∀ p ∈ d₁, p.1 ≠ m) : dDel (d₁ ++ d₂) m = d₁ ++ dDel d₂ m :=
  List.eraseP_append_right d₂ (by intro p hp; simpa using h p hp)

lemma map_setKey_id {d : List (Nat × α)} {m : Nat} {v : α}
    (h : ∀ p ∈ d, p.1 ≠ m) :
    d.map (fun p => if p.1 == m then (m, v) else p) = d := by
  induction d with
  | nil => rfl
  | cons q d ih =>
    have hq : ¬(q.1 == m) = true := by simpa using h q (by simp)
    simp only [List.map_cons, hq, if_false, Bool.false_eq_true]
    rw [ih (fun p hp => h p (by simp [hp]))]

lemma dSet_absent {d : List (Nat × α)} {m : Nat} (h : ∀ p ∈ d, p.1 ≠ m)
    (v : α) : dSet d m v = d ++ [(m, v)] := by
  unfold dSet
  rw [dGet_none h]
  rfl

end PyListLemmas

section PyListLemmas2

variable {α : Type}

lemma dGet_zipFrom : ∀ (xs : List α) (k j : Nat) (h : j < xs.length),
    dGet (zipFrom k xs) (k + j) = some (xs.get ⟨j, h⟩)
  | [], _, j, h => by simp at h
  | x :: xs, k, 0, _ => by
    simp only [zipFrom, Nat.add_zero, List.get]
    exact dGet_cons_self k x _
  | x :: xs, k, j + 1, h => by
    have hj : j < xs.length := by
      simpa using Nat.lt_of_succ_lt_succ h
    have ih := dGet_zipFrom xs (k + 1) j hj
    have e : k + (j + 1) = k + 1 + j := by omega
    simp only [zipFrom, List.get]
    rw [e, dGet_cons_ne (by omega), ih]

lemma dDel_zipFrom : ∀ (xs : List α) (k j : Nat), j < xs.length →
    dDel (zipFrom k xs) (k + j) =
      zipFrom k (xs.take j) ++ zipFrom (k + j + 1) (xs.drop (j + 1))
  | [], _, j, h => by simp at h
  | x :: xs, k, 0, _ => by
    simp only [zipFrom, Nat.add_zero, List.take_zero, List.drop_succ_cons,
      List.drop_zero, List.nil_append]
    exact dDel_cons_self k x _
  | x :: xs, k, j + 1, h => by
    have hj : j < xs.length := by
      simpa using Nat.lt_of_succ_lt_succ h
    have ih := dDel_zipFrom xs (k + 1) j hj
    have e : k + (j + 1) = k + 1 + j := by omega
    have e2 : k + 1 + j + 1 = k + (j + 1) + 1 := by omega
    simp only [zipFrom, List.take_succ_cons, List.drop_succ_cons]
    rw [e, dDel_cons_ne (by omega), ih, e2]
    simp [zipFrom]

lemma dPop_zipFrom (xs : List α) (k j : Nat) (h : j < xs.length) :
    dPop (zipFrom k xs) (k + j) =
      some (xs.get ⟨j, h⟩,
        zipFrom k (xs.take j) ++ zipFrom (k + j + 1) (xs.drop (j + 1))) := by
  unfold dPop
  rw [dGet_zipFrom xs k j h, dDel_zipFrom xs k j h]

lemma dSet_zipFrom : ∀ (xs : List α) (k j : Nat) (v : α), j < xs.length →
    dSet (zipFrom k xs) (k + j) v = zipFrom k (xs.set j v)
  | [], _, j, _, h => by simp at h
  | x :: xs, k, 0, v, _ => by
    unfold dSet
    simp only [zipFrom, Nat.add_zero, List.set_cons_zero]
    rw [dGet_cons_self]
    simp only [Option.isSome_some, if_true, List.map_cons, beq_self_eq_true,
      if_pos]
    rw [map_setKey_id (fun p hp => by
      have := (zipFrom_key_lt hp).1
      omega)]
  | x :: xs, k, j + 1, v, h => by
    have hj : j < xs.length := by
      simpa using Nat.lt_of_succ_lt_succ h
    have ih := dSet_zipFrom xs (k + 1) j v hj
    have e : k + (j + 1) = k + 1 + j := by omega
    unfold dSet at ih ⊢
    rw [dGet_zipFrom xs (k + 1) j hj] at ih
    simp only [Option.isSome_some, if_true] at ih
    simp only [zipFrom, List.set_cons_succ]
    rw [e, dGet_cons_ne (by omega), dGet_zipFrom xs (k + 1) j hj]
    simp only [Option.isSome_some, if_true, List.map_cons]
    have hne : ¬(((k, x) : Nat × α).1 == k + 1 + j) = true := by
      simp
      omega
    rw [if_neg hne, ih]

end PyListLemmas2

section ShiftLoopLemmas

variable {α : Type}

/-- Loop invariant of the element-shifting loop: the dict consists of a
`front` of keys below `i`, the still-unshifted segment with keys
`i+1, ..., i + tail.length`, and an already-reinserted `post` of keys
below `i`; the loop pops each key `i+1+j` and re-appends it as `i+j`. -/
lemma shiftLoop_shift : ∀ (tail : List α) (front post : List (Nat × α)) (i : Nat),
    (∀ p ∈ front, p.1 < i) → (∀ p ∈ post, p.1 < i) →
    PyList.shiftLoop (front ++ (zipFrom (i + 1) tail ++ post)) i (i + tail.length) =
      (Except.ok (), front ++ (post ++ zipFrom i tail))
  | [], front, post, i, _, _ => by
    rw [PyList.shiftLoop]
    simp [zipFrom]
  | x :: t, front, post, i, hf, hp => by
    have hstop : i < i + (x :: t).length := by simp
    have hfront : ∀ p ∈ front, p.1 ≠ i + 1 := fun p hp' => by
      have := hf p hp'
      omega
    have hpop : dPop (front ++ (zipFrom (i + 1) (x :: t) ++ post)) (i + 1) =
        some (x, front ++ (zipFrom (i + 2) t ++ post)) := by
      unfold dPop
      simp only [zipFrom, List.cons_append]
      rw [dGet_append_right hfront, dGet_cons_self,
        dDel_append_right hfront, dDel_cons_self]
    have habs : ∀ p ∈ front ++ (zipFrom (i + 2) t ++ post), p.1 ≠ i := by
      intro p hp'
      rcases List.mem_append.mp hp' with h1 | h2
      · have := hf p h1
        omega
      · rcases List.mem_append.mp h2 with h3 | h4
        · have := (zipFrom_key_lt h3).1
          omega
        · have := hp p h4
          omega
    have hset : dSet (front ++ (zipFrom (i + 2) t ++ post)) i x =
        front ++ (zipFrom (i + 2) t ++ (post ++ [(i, x)])) := by
      rw [dSet_absent habs]
      simp [List.append_assoc]
    have ih := shiftLoop_shift t front (post ++ [(i, x)]) (i + 1)
      (fun p hp' => by have := hf p hp'; omega)
      (fun p hp' => by
        rcases List.mem_append.mp hp' with h1 | h2
        · have := hp p h1
          omega
        · have hpx : p = (i, x) := by simpa using h2
          simp [hpx])
    rw [PyList.shiftLoop, if_pos hstop, hpop]
    simp only
    have e2 : i + 1 + 1 = i + 2 := by omega
    have e3 : i + (x :: t).length = i + 1 + t.length := by simp; omega
    rw [hset, e3]
    rw [e2] at ih
    rw [ih]
    simp [zipFrom, List.append_assoc]

end ShiftLoopLemmas

section CanonicalLemmas

variable {α : Type}

/-- After `del`/`pop` of key `j` from a canonical dict, the shift loop
restores the canonical dict of the list with position `j` erased. -/
lemma shiftLoop_eraseIdx (xs : List α) (j : Nat) (h : j < xs.length) :
    PyList.shiftLoop (zipFrom 0 (xs.take j) ++ zipFrom (j + 1) (xs.drop (j + 1)))
      j (xs.length - 1) = (Except.ok (), zipFrom 0 (xs.eraseIdx j)) := by
  have htake : (xs.take j).length = j := by
    simp [List.length_take]
    omega
  have hfront : ∀ p ∈ zipFrom 0 (xs.take j), p.1 < j := by
    intro p hp
    have := (zipFrom_key_lt hp).2
    omega
  have hshift := shiftLoop_shift (xs.drop (j + 1)) (zipFrom 0 (xs.take j)) [] j
    hfront (by simp)
  have hstop : j + (xs.drop (j + 1)).length = xs.length - 1 := by
    simp [List.length_drop]
    omega
  rw [hstop] at hshift
  simp only [List.append_nil, List.nil_append] at hshift
  rw [hshift]
  have hz := zipFrom_append (xs.take j) (xs.drop (j + 1)) 0
  rw [htake, Nat.zero_add] at hz
  rw [List.eraseIdx_eq_take_drop_succ, hz]

/-- `append` on a canonical state is list append. -/
lemma append_fromList (xs : List α) (x : α) :
    (fromList xs).append x = fromList (xs ++ [x]) := by
  unfold PyList.append fromList
  simp only
  have habs : ∀ p ∈ zipFrom 0 xs, p.1 ≠ xs.length := by
    intro p hp
    have := (zipFrom_key_lt hp).2
    omega
  rw [dSet_absent habs]
  have hz := zipFrom_append xs [x] 0
  rw [Nat.zero_add] at hz
  simp [hz, zipFrom]

/-- `__getitem__` on a canonical state: `IndexError` exactly outside
`[0, len)`, the stored element inside. -/
lemma getitem_fromList (xs : List α) (i : Int) :
    (fromList xs).getitem i =
      if h : i < 0 ∨ (xs.length : Int) ≤ i then Except.error PyErr.indexError
      else Except.ok (xs.get ⟨i.toNat, by omega⟩) := by
  unfold PyList.getitem fromList
  by_cases h : i < 0 ∨ (xs.length : Int) ≤ i
  · rw [if_pos h, dif_pos h]
  · rw [if_neg h, dif_neg h]
    have hj : i.toNat < xs.length := by omega
    have hget := dGet_zipFrom xs 0 i.toNat hj
    rw [Nat.zero_add] at hget
    rw [hget]

/-- `__setitem__` on a canonical state: `IndexError` exactly outside
`[0, len)` with the state unchanged, else in-place update. -/
lemma setitem_fromList (xs : List α) (i : Int) (v : α) :
    (fromList xs).setitem i v =
      if i < 0 ∨ (xs.length : Int) ≤ i then (Except.error PyErr.indexError, fromList xs)
      else (Except.ok (), fromList (xs.set i.toNat v)) := by
  unfold PyList.setitem fromList
  by_cases h : i < 0 ∨ (xs.length : Int) ≤ i
  · rw [if_pos h, if_pos h]
  · rw [if_neg h, if_neg h]
    have hj : i.toNat < xs.length := by omega
    have hset := dSet_zipFrom xs 0 i.toNat v hj
    rw [Nat.zero_add] at hset
    simp [hset, List.length_set]

/-- `pop` on a canonical state: `IndexError` exactly outside `[0, len)`
with the state unchanged, else it returns the element at the index and
the canonical state of the list with that position erased. -/
lemma pop_fromList (xs : List α) (i : Int) :
    (fromList xs).pop i =
      if h : i < 0 ∨ (xs.length : Int) ≤ i then (Except.error PyErr.indexError, fromList xs)
      else (Except.ok (xs.get ⟨i.toNat, by omega⟩), fromList (xs.eraseIdx i.toNat)) := by
  unfold PyList.pop fromList
  by_cases h : i < 0 ∨ (xs.length : Int) ≤ i
  · rw [if_pos h, dif_pos h]
  · rw [if_neg h, dif_neg h]
    have hj : i.toNat < xs.length := by omega
    have hpop := dPop_zipFrom xs 0 i.toNat hj
    simp only [Nat.zero_add] at hpop
    dsimp only
    rw [hpop]
    dsimp only
    rw [shiftLoop_eraseIdx xs i.toNat hj]
    simp only [Except.map, List.length_eraseIdx, if_pos hj]

/-- `remove` on a canonical state never raises and yields a canonical
state again (of the list with the first occurrence erased, when any). -/
lemma remove_fromList [DecidableEq α] (xs : List α) (v : α) :
    ∃ ys : List α, (fromList xs).remove v = (Except.ok (), fromList ys) := by
  unfold PyList.remove fromList
  simp only
  cases hfind : (zipFrom 0 xs).find? (fun p => p.2 == v) with
  | none =>
    exact ⟨xs, rfl⟩
  | some p =>
    have hp := List.mem_of_find?_eq_some hfind
    obtain ⟨j, hj, h1, _⟩ := mem_zipFrom hp
    rw [Nat.zero_add] at h1
    refine ⟨xs.eraseIdx j, ?_⟩
    dsimp only
    have hdel := dDel_zipFrom xs 0 j hj
    simp only [Nat.zero_add] at hdel
    rw [h1, hdel, shiftLoop_eraseIdx xs j hj]
    simp [List.length_eraseIdx, if_pos hj]

end CanonicalLemmas

section KeysInvLemmas

variable {α : Type}

lemma zipFrom_map_fst : ∀ (xs : List α) (k : Nat),
    (zipFrom k xs).map Prod.fst = List.range' k xs.length
  | [], _ => rfl
  | x :: xs, k => by
    simp [zipFrom, List.range'_succ, zipFrom_map_fst xs (k + 1)]

lemma keysInv_fromList (xs : List α) : KeysInv (fromList xs) := by
  constructor
  · simp [fromList, KeysInv, zipFrom_map_fst, List.range_eq_range']
  · simp [fromList, KeysInv, zipFrom_length]

lemma eq_zipFrom_of_map_fst : ∀ (d : List (Nat × α)) (k n : Nat),
    d.map Prod.fst = List.range' k n → d = zipFrom k (d.map Prod.snd)
  | [], _, _, _ => rfl
  | (a, b) :: d, k, n, h => by
    cases n with
    | zero => simp at h
    | succ m =>
      rw [List.range'_succ] at h
      simp only [List.map_cons, List.cons.injEq] at h
      obtain ⟨h1, h2⟩ := h
      have ih := eq_zipFrom_of_map_fst d (k + 1) m h2
      simp only [List.map_cons, zipFrom, h1]
      rw [← ih]

lemma fromList_of_keysInv {l : PyList α} (h : KeysInv l) :
    l = fromList (l.elements.map Prod.snd) := by
  obtain ⟨h1, h2⟩ := h
  rw [List.range_eq_range'] at h1
  have he := eq_zipFrom_of_map_fst l.elements 0 l.count h1
  rcases l with ⟨d, c⟩
  simp only [fromList, PyList.mk.injEq]
  simp only at he h2
  exact ⟨he, by simp [h2]⟩

end KeysInvLemmas

/-! ## Bank account helper lemma -/

lemma runOps_balance_nonneg : ∀ (ops : List Theory2.TxOp) (a : Theory2.BankAccount),
    0 ≤ a.balance → 0 ≤ (Theory2.runOps a ops).balance
  | [], _, h => h
  | Theory2.TxOp.deposit amt :: ops, a, h => by
    simp only [Theory2.runOps]
    apply runOps_balance_nonneg ops
    unfold Theory2.BankAccount.deposit
    split_ifs with h'
    · simp only
      linarith
    · exact h
  | Theory2.TxOp.withdraw amt :: ops, a, h => by
    simp only [Theory2.runOps]
    apply runOps_balance_nonneg ops
    unfold Theory2.BankAccount.withdraw
    split_ifs with h'
    · simp only
      linarith [h'.2]
    · exact h

/-! ## The claims -/

/-- C1: the claim says both `Option.d1` (s_1_bs_option.py) and
`Option.compute_d1` (s3_extended.py) return
`(ln(S/K) + (r + 0.5σ²)T) / (σ√T)`. At the failing input
`S=1, K=1, r=0, T=4, σ=1` the code's `d1` returns `4` — it divides by `σ`
and then multiplies by `√T` (Python precedence) — while the spec formula
(and `compute_d1`, which matches it at every input) give `1`. -/
theorem d1_precedence_failing_input :
    S1.d1 1 1 0 4 1 = 4 ∧ S3.compute_d1 1 1 0 4 1 = 1 ∧ specD1 1 1 0 4 1 = 1 ∧
    S1.d1 1 1 0 4 1 ≠ specD1 1 1 0 4 1 ∧
    ∀ S K r T sigma : ℝ, S3.compute_d1 S K r T sigma = specD1 S K r T sigma := by
  have hsqrt : Real.sqrt 4 = 2 := by
    rw [show (4 : ℝ) = 2 ^ 2 by norm_num]
    exact Real.sqrt_sq (by norm_num)
  have hlog : Real.log ((1 : ℝ) / 1) = 0 := by norm_num
  have h1 : S1.d1 1 1 0 4 1 = 4 := by
    unfold S1.d1
    rw [hlog, hsqrt]
    norm_num
  have h2 : S3.compute_d1 1 1 0 4 1 = 1 := by
    unfold S3.compute_d1
    rw [hlog, hsqrt]
    norm_num
  have h3 : specD1 1 1 0 4 1 = 1 := by
    unfold specD1
    rw [hlog, hsqrt]
    norm_num
  refine ⟨h1, h2, h3, ?_, fun S K r T sigma => rfl⟩
  rw [h1, h3]
  norm_num

/-- C2: put–call parity. For a `Call` and a `Put` built from the same
`(S, K, r, T, σ)` with `S, K, T, σ > 0`,
`Call.price() - Put.price() = S - K·e^(-rT)` holds exactly in real
arithmetic (it needs only `Φ(x) + Φ(-x) = 1`, so it holds for whatever
values `d1`/`d2` take). -/
theorem put_call_parity (S K r T sigma : ℝ) (_hS : 0 < S) (_hK : 0 < K)
    (_hT : 0 < T) (_hsig : 0 < sigma) :
    S1.Call.price S K r T sigma - S1.Put.price S K r T sigma =
      S - K * Real.exp (-r * T) := by
  unfold S1.Call.price S1.Put.price
  rw [normCdf_neg_eq (S1.d1 S K r T sigma), normCdf_neg_eq (S1.d2 S K r T sigma)]
  ring

/-- Witness for C2 at the repository's demo input
`S=200, K=250, r=0.05, T=1, σ=0.15`. -/
theorem put_call_parity_witness :
    S1.Call.price 200 250 0.05 1 0.15 - S1.Put.price 200 250 0.05 1 0.15 =
      200 - 250 * Real.exp (-0.05 * 1) :=
  put_call_parity 200 250 0.05 1 0.15 (by norm_num) (by norm_num)
    (by norm_num) (by norm_num)

/-- C3: at the failing input of the code's own test
(`self.list` holding `[1, 2, 3]`, `other` the built-in list `[2, 3, 4]`),
`List.__add__` — whose body is `pass` — returns `None` and raises no
exception at all, so `l + other` does NOT raise `TypeError` for an
unsupported operand type, contradicting `TestListDunder.test_add`. -/
theorem add_builtin_list_no_type_error :
    PyList.add (fromList ([1, 2, 3] : List Int)) ([2, 3, 4] : List Int) =
      (Except.ok none, fromList [1, 2, 3], [2, 3, 4]) := rfl

/-- C4: `List.__add__` is unimplemented (`pass`): for any two custom
lists it returns `None` (never a concatenated `List`) and leaves both
operands unchanged. -/
theorem add_returns_none {α : Type} (a b : PyList α) :
    PyList.add a b = (Except.ok none, a, b) ∧
    ∀ c : PyList α, (PyList.add a b).1 ≠ Except.ok (some c) :=
  ⟨rfl, fun _ h => by simp [PyList.add] at h⟩

/-- C5: `FinancialAsset.update_last_quote` is atomic on error and total:
`__check_quote_for_asset` raises `NegativePriceException(new_quote)`
exactly when `new_quote.price < 0`; in that case the exception is caught
(and only logged — the `raise` is commented out), nothing escapes, and
the asset is unchanged; otherwise the old `last_quote` is appended to
`history` and `last_quote` becomes `new_quote`. Totality of the Lean
function (it returns a `FinancialAsset`, not an `Except`) is the "no
exception escapes" part. -/
theorem update_last_quote_spec (a : S3.FinancialAsset) (q : S3.Quote) :
    S3.FinancialAsset.check_quote_for_asset q =
      (if q.price < 0 then Except.error ⟨q⟩ else Except.ok ()) ∧
    a.update_last_quote q =
      (if q.price < 0 then a
       else { a with history := a.history ++ [a.last_quote], last_quote := q }) := by
  constructor
  · rfl
  · unfold S3.FinancialAsset.update_last_quote S3.FinancialAsset.check_quote_for_asset
    split_ifs with h <;> rfl

/-- C6: on every reachable list state (`fromList xs`) and arbitrary
integer index `i`, `__getitem__`, `__setitem__` and `pop` raise
`IndexError` exactly when `i < 0 ∨ i ≥ len(l)` (negative indices are
rejected), leave the list unchanged when they raise, and otherwise
return / replace / remove-and-return the element at position `i`. -/
theorem list_index_error_spec {α : Type} (xs : List α) (i : Int) (v : α) :
    (fromList xs).len = xs.length ∧
    (fromList xs).getitem i =
      (if h : i < 0 ∨ (xs.length : Int) ≤ i then Except.error PyErr.indexError
       else Except.ok (xs.get ⟨i.toNat, by omega⟩)) ∧
    (fromList xs).setitem i v =
      (if i < 0 ∨ (xs.length : Int) ≤ i then (Except.error PyErr.indexError, fromList xs)
       else (Except.ok (), fromList (xs.set i.toNat v))) ∧
    (fromList xs).pop i =
      (if h : i < 0 ∨ (xs.length : Int) ≤ i then (Except.error PyErr.indexError, fromList xs)
       else (Except.ok (xs.get ⟨i.toNat, by omega⟩), fromList (xs.eraseIdx i.toNat))) :=
  ⟨rfl, getitem_fromList xs i, setitem_fromList xs i v, pop_fromList xs i⟩

/-- C7: for every valid input, `Call.delta() = Φ(d1) ∈ [0, 1]` and
`Put.delta() = Φ(d1) - 1 ∈ [-1, 0]`. -/
theorem delta_bounds (S K r T sigma : ℝ) (_hS : 0 < S) (_hK : 0 < K)
    (_hT : 0 < T) (_hsig : 0 < sigma) :
    0 ≤ S1.Call.delta S K r T sigma ∧ S1.Call.delta S K r T sigma ≤ 1 ∧
    -1 ≤ S1.Put.delta S K r T sigma ∧ S1.Put.delta S K r T sigma ≤ 0 := by
  have h1 := normCdf_nonneg (S1.d1 S K r T sigma)
  have h2 := normCdf_le_one (S1.d1 S K r T sigma)
  unfold S1.Call.delta S1.Put.delta
  exact ⟨h1, h2, by linarith, by linarith⟩

/-- Witness for C7 at `S=200, K=250, r=0.05, T=1, σ=0.15`. -/
theorem delta_bounds_witness :
    0 ≤ S1.Call.delta 200 250 0.05 1 0.15 ∧
    S1.Call.delta 200 250 0.05 1 0.15 ≤ 1 ∧
    -1 ≤ S1.Put.delta 200 250 0.05 1 0.15 ∧
    S1.Put.delta 200 250 0.05 1 0.15 ≤ 0 :=
  delta_bounds 200 250 0.05 1 0.15 (by norm_num) (by norm_num)
    (by norm_num) (by norm_num)

/-- C8: `Option.vega() = S·φ(d1)·√T` (shared by `Call` and `Put`) is
non-negative for every valid input. -/
theorem vega_nonneg (S K r T sigma : ℝ) (hS : 0 < S) (_hK : 0 < K)
    (_hT : 0 < T) (_hsig : 0 < sigma) :
    0 ≤ S1.vega S K r T sigma := by
  unfold S1.vega
  exact mul_nonneg (mul_nonneg hS.le (normPdf_nonneg _)) (Real.sqrt_nonneg _)

/-- Witness for C8 at `S=200, K=250, r=0.05, T=1, σ=0.15`. -/
theorem vega_nonneg_witness : 0 ≤ S1.vega 200 250 0.05 1 0.15 :=
  vega_nonneg 200 250 0.05 1 0.15 (by norm_num) (by norm_num)
    (by norm_num) (by norm_num)

/-- C9: the implicit invariant `KeysInv` — `_count` equals the number of
stored elements and the keys of `_elements` are exactly
`0, ..., _count-1` — holds after construction and is preserved by
`append`, `remove`, `pop` and `__setitem__` (through the post-state even
when the method raises `IndexError`). -/
theorem list_keys_invariant (α : Type) [DecidableEq α] :
    KeysInv (PyList.empty : PyList α) ∧
    ∀ l : PyList α, KeysInv l →
      (∀ x, KeysInv (l.append x)) ∧ (∀ v, KeysInv (l.remove v).2) ∧
      (∀ i, KeysInv (l.pop i).2) ∧ (∀ i v, KeysInv (l.setitem i v).2) := by
  constructor
  · exact ⟨rfl, rfl⟩
  · intro l hl
    rw [fromList_of_keysInv hl]
    refine ⟨fun x => ?_, fun v => ?_, fun i => ?_, fun i v => ?_⟩
    · rw [append_fromList]
      exact keysInv_fromList _
    · obtain ⟨zs, hzs⟩ := remove_fromList (l.elements.map Prod.snd) v
      rw [hzs]
      exact keysInv_fromList _
    · rw [pop_fromList]
      by_cases h : i < 0 ∨ (((l.elements.map Prod.snd).length : Int) ≤ i)
      · rw [dif_pos h]
        exact keysInv_fromList _
      · rw [dif_neg h]
        exact keysInv_fromList _
    · rw [setitem_fromList]
      by_cases h : i < 0 ∨ (((l.elements.map Prod.snd).length : Int) ≤ i)
      · rw [if_pos h]
        exact keysInv_fromList _
      · rw [if_neg h]
        exact keysInv_fromList _

/-- Witness for C9: popping index 1 from a concrete three-element list
preserves the invariant. -/
theorem list_keys_invariant_witness :
    KeysInv ((fromList ([10, 20, 30] : List Int)).pop 1).2 :=
  ((list_keys_invariant Int).2 (fromList [10, 20, 30])
    (keysInv_fromList [10, 20, 30])).2.2.1 1

/-- C10: `BankAccount` behaviour: `deposit` returns `True` and adds the
amount exactly when `amount > 0`; `withdraw` returns `True` and
subtracts exactly when `0 < amount ≤ balance`; otherwise the balance is
unchanged and the call returns `False`; and from a non-negative initial
balance, `get_balance()` stays non-negative under any sequence of
`deposit`/`withdraw` calls. -/
theorem bank_account_spec (a : Theory2.BankAccount) (amt : ℚ)
    (ops : List Theory2.TxOp) :
    ((a.deposit amt).1 = true ↔ 0 < amt) ∧
    (a.deposit amt).2.get_balance =
      (if 0 < amt then a.get_balance + amt else a.get_balance) ∧
    ((a.withdraw amt).1 = true ↔ 0 < amt ∧ amt ≤ a.get_balance) ∧
    (a.withdraw amt).2.get_balance =
      (if 0 < amt ∧ amt ≤ a.get_balance then a.get_balance - amt
       else a.get_balance) ∧
    (0 ≤ a.get_balance → 0 ≤ (Theory2.runOps a ops).get_balance) := by
  unfold Theory2.BankAccount.get_balance Theory2.BankAccount.deposit
    Theory2.BankAccount.withdraw
  refine ⟨?_, ?_, ?_, ?_, fun h => runOps_balance_nonneg ops a h⟩
  · split_ifs with h <;> simp [h]
  · split_ifs with h <;> rfl
  · split_ifs with h <;> simp [h]
  · split_ifs with h <;> rfl

/-- Witness for C10: a deposit of 500 then a withdrawal of 200 from an
account opened with 1000 keeps the balance non-negative. -/
theorem bank_account_spec_witness :
    0 ≤ (Theory2.runOps (Theory2.BankAccount.init "Someone" 1000)
      [Theory2.TxOp.deposit 500, Theory2.TxOp.withdraw 200]).get_balance :=
  (bank_account_spec (Theory2.BankAccount.init "Someone" 1000) 500
    [Theory2.TxOp.deposit 500, Theory2.TxOp.withdraw 200]).2.2.2.2
    (by norm_num [Theory2.BankAccount.init, Theory2.BankAccount.get_balance])

/-- Witness for C4 at two concrete custom lists. -/
theorem add_returns_none_witness :
    PyList.add (fromList ([4, 5] : List Int)) (fromList ([6] : List Int)) =
      (Except.ok none, fromList [4, 5], fromList [6]) :=
  (add_returns_none (fromList [4, 5]) (fromList [6])).1

/-- Witness for C5: an update with the negative price `-200` (the
repository's own example) leaves the asset unchanged. -/
theorem update_last_quote_spec_witness :
    S3.FinancialAsset.update_last_quote ⟨"AAPL", ⟨0, 175⟩, "USD", []⟩ ⟨1, -200⟩ =
      ⟨"AAPL", ⟨0, 175⟩, "USD", []⟩ :=
  ((update_last_quote_spec ⟨"AAPL", ⟨0, 175⟩, "USD", []⟩ ⟨1, -200⟩).2).trans
    (if_pos (by norm_num))

/-- Witness for C6: on `[1, 2, 3]`, index `3` raises `IndexError` and
index `1` returns the stored element `2`. -/
theorem list_index_error_spec_witness :
    (fromList ([1, 2, 3] : List Int)).getitem 3 = Except.error PyErr.indexError ∧
    (fromList ([1, 2, 3] : List Int)).getitem 1 = Except.ok 2 := by
  constructor
  · rw [(list_index_error_spec ([1, 2, 3] : List Int) 3 0).2.1]
    rw [dif_pos (by norm_num)]
  · rw [(list_index_error_spec ([1, 2, 3] : List Int) 1 0).2.1]
    rw [dif_neg (by norm_num)]
    rfl
